import Mathlib

/-
  A shallow embedding of the assignment core of django-cravensworth
  (cravensworth/core/models.py and cravensworth/core/experiment.py),
  together with theorems checking the specified properties.

  Machine integers are modelled as Nat/Int.  The external 64-bit hash
  (rapidhash) is modelled as an arbitrary function parameter
  `hash : String → Nat`; the global random module stream consumed by
  random.randint(0, 99) is modelled as a list of naturals carried in the
  Context state.  Python exceptions are modelled with Except Unit
  (the message text is irrelevant to the properties below).
-/

deriving instance DecidableEq for Except

namespace Cravensworth

/-- Python values that can appear in a Context: strings, ints, bools,
None, and (nested) dicts.  Dicts are association lists. -/
inductive Val where
  | str (s : String)
  | int (n : Int)
  | bool (b : Bool)
  | none
  | dict (entries : List (String × Val))

/-- Lookup in a Python dict modelled as an association list
(`d.get(k)` / `d[k]`-style first-match lookup). -/
def dictGet {α : Type} (es : List (String × α)) (k : String) : Option α :=
  (es.find? (fun p => p.1 == k)).map Prod.snd

mutual

/-- Python `repr()` of a value (as used for the elements of a dict when
the dict is stringified). -/
def pyRepr : Val → String
  | Val.str s => "\x27" ++ s ++ "\x27"
  | Val.int n => toString n
  | Val.bool b => if b then "True" else "False"
  | Val.none => "None"
  | Val.dict es => "\x7b" ++ pyStrEntries es ++ "\x7d"

/-- Rendering of dict entries (keys and values via `pyRepr`). -/
def pyStrEntries : List (String × Val) → String
  | [] => ""
  | (k, v) :: [] => "\x27" ++ k ++ "\x27: " ++ pyRepr v
  | (k, v) :: e :: rest =>
      "\x27" ++ k ++ "\x27: " ++ pyRepr v ++ ", " ++ pyStrEntries (e :: rest)

end

/-- Python f-string rendering of a value, i.e. `str()`: identical to
`repr()` except that a top-level string is rendered without quotes. -/
def pyStr : Val → String
  | Val.str s => s
  | v => pyRepr v

/-- Python f-string rendering of the seed as it is concatenated with the
stringified identity value: a null seed renders as "None". -/
def pySeedStr : Option String → String
  | Option.none => "None"
  | some s => s

/-- Split a character list at every character satisfying `p`, keeping
empty segments (the semantics of Python `str.split(sep)` for a
single-character separator, at the character level). -/
def splitCharsBy (p : Char → Bool) : List Char → List (List Char)
  | [] => [[]]
  | x :: xs =>
      if p x then [] :: splitCharsBy p xs
      else
        match splitCharsBy p xs with
        | [] => [[x]]
        | g :: gs => (x :: g) :: gs

/-- Model of `keypath.split('.')` (Python `str.split` with an explicit separator,
which yields [""] on the empty string and keeps empty segments). -/
def splitPath (s : String) : List String :=
  (splitCharsBy (fun c => c == '.') s.toList).map List.asString

/-- One step of `Context._get_key_by_path`: for a Mapping, `current.get(key)`;
for any other value, `getattr(current, key, None)` (our plain values have no
attributes, so this is None).  A stored Python None also collapses to
`Option.none`, matching the `if current is None: break`. -/
def getStep : Val → String → Option Val
  | Val.dict es, k =>
      match dictGet es k with
      | some Val.none => Option.none
      | some v => some v
      | Option.none => Option.none
  | _, _ => Option.none

/-- Model of `Context._get_key_by_path(obj, path)`: walk the dot-separated keys;
the result is `Option.none` exactly when the Python function returns None
(missing intermediate key, non-mapping intermediate value, or a stored
None). -/
def getKeyByPath (v : Val) : List String → Option Val
  | [] => some v
  | k :: ks =>
      match getStep v k with
      | Option.none => Option.none
      | some v2 => getKeyByPath v2 ks

/-- Context state: the underlying data, the `_identities` memoization
cache keyed by the cache-key string, and the stream of pending draws of
the global random module (each `random.randint(0, 99)` consumes one
element, reduced mod 100 to model the 0..99 contract). -/
structure Context where
  data : List (String × Val)
  identities : List (String × Nat)
  rands : List Nat

/-- The cache key used by `Context.identity`: the concatenation of the
keypath and the seed, where a null or empty seed contributes nothing. -/
def cacheKeyOf (keypath : String) (seed : Option String) : String :=
  keypath ++ seed.getD ""

/-- Model of `Context._calculate_identity`: the special keypath "random" draws
`random.randint(0, 99)`; any other keypath resolves the dotted path and
raises KeyError if the result is absent or None, otherwise hashes the
stringified value concatenated with the seed, reduced mod 100. -/
def Context.calculateIdentity (hash : String → Nat) (ctx : Context)
    (keypath : String) (seed : Option String) : Except Unit Nat × Context :=
  if keypath = "random" then
    (Except.ok ((ctx.rands.headD 0) % 100), { ctx with rands := ctx.rands.tail })
  else
    match getKeyByPath (Val.dict ctx.data) (splitPath keypath) with
    | Option.none => (Except.error (), ctx)
    | some v => (Except.ok (hash (pyStr v ++ pySeedStr seed) % 100), ctx)

/-- Model of `Context.identity`: consult the `_identities` cache under the cache
key; on a miss, compute via `_calculate_identity` and cache the result
(nothing is cached when the computation raises). -/
def Context.identity (hash : String → Nat) (ctx : Context)
    (keypath : String) (seed : Option String) : Except Unit Nat × Context :=
  match dictGet ctx.identities (cacheKeyOf keypath seed) with
  | some v => (Except.ok v, ctx)
  | Option.none =>
      match ctx.calculateIdentity hash keypath seed with
      | (Except.ok v, ctx2) =>
          (Except.ok v,
           { ctx2 with identities := (cacheKeyOf keypath seed, v) :: ctx2.identities })
      | (Except.error er, ctx2) => (Except.error er, ctx2)

/-- A character of the ASCII word class `[a-zA-Z0-9_]` (`\w` with re.ASCII). -/
def isWordChar (c : Char) : Bool := c.isAlphanum || c == '_'

/-- Full match of one-or-more characters satisfying `p`, with Python `$`
semantics: `$` also matches just before one trailing newline. -/
def fullMatchPlus (p : Char → Bool) (s : String) : Bool :=
  let cs := s.toList
  (!cs.isEmpty && cs.all p) ||
  (match cs.reverse with
   | nl :: rest => nl == Char.ofNat 10 && !rest.isEmpty && rest.all p
   | [] => false)

/-- Python re.match of the name pattern (one or more word characters,
anchored on both sides) with re.ASCII. -/
def matchesNamePattern (s : String) : Bool := fullMatchPlus isWordChar s

/-- Python re.match of the symbol pattern (one or more word characters or
dots, anchored on both sides) with re.ASCII. -/
def matchesSymbolPattern (s : String) : Bool :=
  fullMatchPlus (fun c => isWordChar c || c == '.') s

/-- Model of `Allocation`: the portion of an audience allocated to a variant. -/
structure Allocation where
  variant : String
  percent : Int
deriving DecidableEq

/-- Model of `Allocation.validate`: variant must match the name pattern and
percent must lie in [0, 100] (validate_variant, then validate_percent). -/
def Allocation.validate (al : Allocation) : Except Unit Unit :=
  if matchesNamePattern al.variant then
    if al.percent < 0 then Except.error ()
    else if al.percent > 100 then Except.error ()
    else Except.ok ()
  else Except.error ()

/-- Model of `Audience`: an optional rule and an ordered list of allocations. -/
structure Audience where
  rule : Option String
  allocations : List Allocation
deriving DecidableEq

/-- Sum of the allocation percentages (used by `Audience.validate_allocations`). -/
def allocSum : List Allocation → Int
  | [] => 0
  | al :: rest => al.percent + allocSum rest

/-- Validation of an allocation list as done by
`Audience.validate_allocations`: each allocation is validated in order
(the first failure propagates); the total percent is returned. -/
def validateAllocList : List Allocation → Except Unit Int
  | [] => Except.ok 0
  | al :: rest =>
      match al.validate with
      | Except.error er => Except.error er
      | Except.ok _ =>
          match validateAllocList rest with
          | Except.error er => Except.error er
          | Except.ok t => Except.ok (al.percent + t)

/-- Model of `Audience.validate` (via validate_allocations): validates every
allocation and requires the percentages to sum to exactly 100. -/
def Audience.validate (a : Audience) : Except Unit Unit :=
  match validateAllocList a.allocations with
  | Except.error er => Except.error er
  | Except.ok t => if t = 100 then Except.ok () else Except.error ()

/-- The shared class-level rule evaluator (`Audience.evaluator`, a ClassVar
EvalWithCompoundTypes instance).  Its only state relevant here is the
mutable `names` attribute that `matches` assigns before evaluating. -/
structure Evaluator where
  names : List (String × Val)

/-- The assignment `self.evaluator.names = context` performed by
`Audience.matches` when the audience has a rule (with a null rule,
`matches` returns before touching the evaluator). -/
def Audience.matchesSetNames (a : Audience) (ctxData : List (String × Val))
    (ev : Evaluator) : Evaluator :=
  match a.rule with
  | Option.none => ev
  | some _ => ⟨ctxData⟩

/-- The evaluation half of `Audience.matches`: with a null rule the result
is True; otherwise `self.evaluator.eval(self.rule, self._rule_parsed)` runs
against the evaluator's current `names`, and a non-boolean result raises
TypeError.  The behaviour of the external simpleeval evaluator on a parsed
rule is the parameter `evalRule`. -/
def Audience.matchesEval (evalRule : String → List (String × Val) → Except Unit Val)
    (a : Audience) (ev : Evaluator) : Except Unit Bool :=
  match a.rule with
  | Option.none => Except.ok true
  | some r =>
      match evalRule r ev.names with
      | Except.ok (Val.bool b) => Except.ok b
      | Except.ok _ => Except.error ()
      | Except.error er => Except.error er

/-- Model of `Audience.matches(context)`: assign the context to the shared
evaluator's `names`, then evaluate the rule against it. -/
def Audience.matches (evalRule : String → List (String × Val) → Except Unit Val)
    (a : Audience) (ctxData : List (String × Val)) (ev : Evaluator) :
    Except Unit Bool × Evaluator :=
  (a.matchesEval evalRule (a.matchesSetNames ctxData ev),
   a.matchesSetNames ctxData ev)

/-- The loop of `Audience.determine_variant`: walk the allocations keeping
a running range start (initially the -1 sentinel); the first allocation
with `range_start < rangekey <= range_end` wins; falling off the loop
returns Python None. -/
def determineVariantGo (rangekey : Int) : Int → List Allocation → Option String
  | _, [] => Option.none
  | rs, al :: rest =>
      let re := rs + al.percent
      if rs < rangekey ∧ rangekey ≤ re then some al.variant
      else determineVariantGo rangekey re rest

/-- Model of `Audience.determine_variant(rangekey)`. -/
def Audience.determineVariant (a : Audience) (rangekey : Int) : Option String :=
  determineVariantGo rangekey (-1) a.allocations

/-- Model of `Experiment`: name, identity keypath, variant vocabulary, audiences and
optional seed.  `__post_init__` replaces a null seed with the name, which is
captured by `Experiment.seed` below. -/
structure Experiment where
  name : String
  identity : String
  variants : List String
  audiences : List Audience
  seedArg : Option String
deriving DecidableEq

/-- The effective seed after `__post_init__`: the given seed, or the
experiment name when the given seed is None. -/
def Experiment.seed (e : Experiment) : String := e.seedArg.getD e.name

/-- Validation of one audience's allocations inside
`Experiment.validate_audiences`: each allocation is validated and its
variant must be declared in the experiment's variants. -/
def checkAllocsDeclared (variants : List String) : List Allocation → Except Unit Unit
  | [] => Except.ok ()
  | al :: rest =>
      match al.validate with
      | Except.error er => Except.error er
      | Except.ok _ =>
          if al.variant ∈ variants then checkAllocsDeclared variants rest
          else Except.error ()

/-- The allocation checks of `Experiment.validate_audiences`, over all
audiences in order. -/
def checkAudiencesAllocs (variants : List String) : List Audience → Except Unit Unit
  | [] => Except.ok ()
  | a :: rest =>
      match checkAllocsDeclared variants a.allocations with
      | Except.error er => Except.error er
      | Except.ok _ => checkAudiencesAllocs variants rest

/-- Model of `Experiment.validate_audiences`: at least one audience; no null rule
before the last position; the last audience must not define a rule; every
allocation validates and references a declared variant.  Note that this
never checks that an audience's percentages sum to 100 (that check lives
in `Audience.validate`, which this method does not call). -/
def Experiment.validateAudiences (e : Experiment) : Except Unit Unit :=
  if e.audiences.length = 0 then Except.error ()
  else if e.audiences.dropLast.any (fun a => a.rule.isNone) then Except.error ()
  else if e.audiences.getLast?.any (fun a => a.rule.isSome) then Except.error ()
  else checkAudiencesAllocs e.variants e.audiences

/-- Model of `Experiment.validate`: runs the per-field validators declared on the
dataclass (validate_name, validate_identity, validate_variants,
validate_audiences); with a uniform error type the order only decides
which failure fires first. -/
def Experiment.validate (e : Experiment) : Except Unit Unit :=
  if matchesNamePattern e.name then
    if e.identity = "random" ∨ matchesSymbolPattern e.identity then
      if e.variants.length < 1 then Except.error ()
      else e.validateAudiences
    else Except.error ()
  else Except.error ()

/-- The audience loop of `Experiment.determine_variant`: for the first
audience whose rule matches, compute the identity and bucket it; a rule
error or identity KeyError propagates; if no audience matches, Python
returns None. -/
def determineVariantLoop (hash : String → Nat)
    (evalRule : String → List (String × Val) → Except Unit Val)
    (identKey : String) (seed : Option String) :
    List Audience → Context → Evaluator →
    Except Unit (Option String) × Context × Evaluator
  | [], ctx, ev => (Except.ok Option.none, ctx, ev)
  | a :: rest, ctx, ev =>
      match a.matches evalRule ctx.data ev with
      | (Except.error er, ev2) => (Except.error er, ctx, ev2)
      | (Except.ok false, ev2) =>
          determineVariantLoop hash evalRule identKey seed rest ctx ev2
      | (Except.ok true, ev2) =>
          match ctx.identity hash identKey seed with
          | (Except.ok idv, ctx2) =>
              (Except.ok (a.determineVariant (idv : Int)), ctx2, ev2)
          | (Except.error er, ctx2) => (Except.error er, ctx2, ev2)

/-- Model of `Experiment.determine_variant(context, override)`: a non-null override
that names a declared variant is returned immediately; otherwise the
audiences are scanned in order. -/
def Experiment.determineVariant (hash : String → Nat)
    (evalRule : String → List (String × Val) → Except Unit Val)
    (e : Experiment) (ctx : Context) (override : Option String)
    (ev : Evaluator) : Except Unit (Option String) × Context × Evaluator :=
  match override with
  | some o =>
      if o ∈ e.variants then (Except.ok (some o), ctx, ev)
      else determineVariantLoop hash evalRule e.identity (some e.seed) e.audiences ctx ev
  | Option.none =>
      determineVariantLoop hash evalRule e.identity (some e.seed) e.audiences ctx ev

/-- Rejoin colon-separated segments (the inverse of splitting on `:`),
used to reconstruct everything left of the last colon. -/
def joinColon : List (List Char) → List Char
  | [] => []
  | [g] => g
  | g :: g2 :: gs => g ++ ':' :: joinColon (g2 :: gs)

/-- Model of `tok.rsplit(':', maxsplit=1)` restricted to the two-element success
case: split at the last colon; a token with no colon yields none (in
Python, unpacking the one-element list raises ValueError). -/
def rsplitColon (tok : String) : Option (String × String) :=
  match (splitCharsBy (fun c => c == ':') tok.toList).reverse with
  | [] => Option.none
  | [_] => Option.none
  | lastPart :: restRev =>
      some ((joinColon restRev.reverse).asString, lastPart.asString)

/-- Python dict assignment `m[k] = v` on an insertion-ordered association
list: update in place if the key exists, else append. -/
def dictSet {α : Type} (m : List (String × α)) (k : String) (v : α) :
    List (String × α) :=
  if m.any (fun p => p.1 == k) then
    m.map (fun p => if p.1 == k then (k, v) else p)
  else m ++ [(k, v)]

/-- The token loop of `_extract_overrides`: for each whitespace-delimited
token, `experiment, variant = override.rsplit(':', maxsplit=1)` — a token
with no colon raises ValueError from the unpacking — then
`overrides[experiment] = variant`. -/
def extractOverridesGo : List String → List (String × String) →
    Except Unit (List (String × String))
  | [], acc => Except.ok acc
  | tok :: rest, acc =>
      match rsplitColon tok with
      | Option.none => Except.error ()
      | some (ex, var) => extractOverridesGo rest (dictSet acc ex var)

/-- The cookie-parsing core of `_extract_overrides`: `cookie.split()`
(split on whitespace runs, dropping empty pieces) followed by the token
loop above. -/
def extractOverrides (cookie : String) : Except Unit (List (String × String)) :=
  extractOverridesGo
    (((splitCharsBy Char.isWhitespace cookie.toList).filter
      (fun g => !g.isEmpty)).map List.asString) []

/-- Model of `_CravensworthState`: the experiments dict keyed by name (built as
`\x7be.name: e for e in experiments\x7d`), the overrides mapping, and the
context. -/
structure CravensworthState where
  experiments : List (String × Experiment)
  overrides : List (String × String)
  context : Context

/-- The experiments dict comprehension of `_CravensworthState.__init__`. -/
def mkExperimentsDict (exps : List Experiment) : List (String × Experiment) :=
  exps.foldl (fun acc e => dictSet acc e.name e) []

/-- Model of `_CravensworthState(experiments, overrides, context)`. -/
def mkState (exps : List Experiment) (ovr : List (String × String))
    (ctx : Context) : CravensworthState :=
  ⟨mkExperimentsDict exps, ovr, ctx⟩

/-- The loop of `_CravensworthState.export`: for each known experiment,
`override = self._overrides[experiment.name]` — direct indexing, which
raises KeyError when the experiment has no override entry — then the
resolved variant is recorded under the experiment's name. -/
def exportGo (hash : String → Nat)
    (evalRule : String → List (String × Val) → Except Unit Val)
    (ovr : List (String × String)) :
    List (String × Experiment) → List (String × Option String) → Context →
    Evaluator → Except Unit (List (String × Option String)) × Context × Evaluator
  | [], acc, ctx, ev => (Except.ok acc, ctx, ev)
  | (_, e) :: rest, acc, ctx, ev =>
      match dictGet ovr e.name with
      | Option.none => (Except.error (), ctx, ev)
      | some o =>
          match e.determineVariant hash evalRule ctx (some o) ev with
          | (Except.ok r, ctx2, ev2) =>
              exportGo hash evalRule ovr rest (acc ++ [(e.name, r)]) ctx2 ev2
          | (Except.error er, ctx2, ev2) => (Except.error er, ctx2, ev2)

/-- Model of `_CravensworthState.export()`. -/
def CravensworthState.export (hash : String → Nat)
    (evalRule : String → List (String × Val) → Except Unit Val)
    (st : CravensworthState) (ev : Evaluator) :
    Except Unit (List (String × Option String)) × Context × Evaluator :=
  exportGo hash evalRule st.overrides st.experiments [] st.context ev

/-! ### Concrete instances used in the checks below -/

/-- An experiment whose identity keypath does not resolve in the witness
context at all, used to check the override bypass. -/
def wC3exp : Experiment :=
  ⟨"exp", "user.id", ["on", "off"], [⟨Option.none, [⟨"on", 100⟩]⟩], Option.none⟩

/-- A minimal switch-like experiment used for the export claim. -/
def c8exp : Experiment :=
  ⟨"w", "random", ["on", "off"], [⟨Option.none, [⟨"on", 100⟩]⟩], Option.none⟩

/-- A concrete model of simpleeval evaluating the parsed rule "x == 1"
against the shared evaluator state: true exactly when names resolve "x" to
the integer 1. -/
def cexEvalX : String → List (String × Val) → Except Unit Val :=
  fun _ ns =>
    match dictGet ns "x" with
    | some (Val.int 1) => Except.ok (Val.bool true)
    | _ => Except.ok (Val.bool false)

/-- An audience gated on the rule "x == 1". -/
def cexAudX : Audience := ⟨some "x == 1", [⟨"on", 100⟩]⟩

/-- An experiment whose only (hence last) audience carries a non-null
rule, with no null-rule audience anywhere; all other checks pass. -/
def cexC2 : Experiment :=
  ⟨"exp", "random", ["a"], [⟨some "region == 1", [⟨"a", 100⟩]⟩], Option.none⟩

/-- A fully well-formed experiment (null rule on the last audience only). -/
def wC2good : Experiment :=
  ⟨"exp", "random", ["a"], [⟨Option.none, [⟨"a", 100⟩]⟩], Option.none⟩

/-- An experiment that passes `Experiment.validate()` although its single
(ruleless, hence always matching) audience allocates only 50 percent:
`validate_audiences` checks each allocation individually but never the
per-audience sum (that check lives in `Audience.validate`, which
`Experiment.validate` does not invoke). -/
def cexC1 : Experiment :=
  ⟨"exp", "random", ["a"], [⟨Option.none, [⟨"a", 50⟩]⟩], Option.none⟩

/-- A fully well-formed experiment whose allocations sum to 100. -/
def wC1good : Experiment :=
  ⟨"w", "random", ["a"], [⟨Option.none, [⟨"a", 100⟩]⟩], Option.none⟩

/-! ### Supporting lemmas -/

/-- Lookup after inserting at the head of the cache finds the inserted value. -/
theorem dictGet_cons_self {α : Type} (l : List (String × α)) (k : String) (v : α) :
    dictGet ((k, v) :: l) k = some v := by
  simp [dictGet]

/-- A successful association-list lookup returns a stored value. -/
theorem dictGet_mem {α : Type} (l : List (String × α)) (k : String) (v : α)
    (h : dictGet l k = some v) : ∃ k2, (k2, v) ∈ l := by
  unfold dictGet at h
  cases hf : l.find? (fun p => p.1 == k) with
  | none => rw [hf] at h; simp at h
  | some p =>
      rw [hf] at h
      simp at h
      refine ⟨p.1, ?_⟩
      have hp := List.mem_of_find?_eq_some hf
      rw [← h]
      exact hp

/-- A cache hit returns the cached value and leaves the context unchanged. -/
theorem identity_hit (hash : String → Nat) (ctx : Context) (k : String)
    (s : Option String) (v : Nat)
    (h : dictGet ctx.identities (cacheKeyOf k s) = some v) :
    ctx.identity hash k s = (Except.ok v, ctx) := by
  unfold Context.identity
  rw [h]

/-- After a successful `identity` call, the result is cached under the
cache key in the resulting context. -/
theorem identity_ok_caches (hash : String → Nat) (ctx ctx2 : Context)
    (k : String) (s : Option String) (r : Nat)
    (h : ctx.identity hash k s = (Except.ok r, ctx2)) :
    dictGet ctx2.identities (cacheKeyOf k s) = some r := by
  unfold Context.identity at h
  cases hc : dictGet ctx.identities (cacheKeyOf k s) with
  | some v =>
      rw [hc] at h
      simp at h
      obtain ⟨hv, hctx⟩ := h
      rw [← hctx, ← hv]
      exact hc
  | none =>
      rw [hc] at h
      rcases hcalc : ctx.calculateIdentity hash k s with ⟨res, ctx3⟩
      rw [hcalc] at h
      cases res with
      | ok v =>
          simp at h
          obtain ⟨hv, hctx⟩ := h
          rw [← hctx, ← hv]
          exact dictGet_cons_self _ _ _
      | error er => simp at h

/-- A successful `identity` result is below 100 provided every already
cached value is (the cache is only ever filled by `_calculate_identity`,
whose results are mod 100 or a 0..99 random draw). -/
theorem identity_ok_lt (hash : String → Nat) (ctx ctx2 : Context)
    (k : String) (s : Option String) (r : Nat)
    (hcache : ∀ p ∈ ctx.identities, p.2 < 100)
    (h : ctx.identity hash k s = (Except.ok r, ctx2)) :
    r < 100 := by
  unfold Context.identity at h
  cases hc : dictGet ctx.identities (cacheKeyOf k s) with
  | some v =>
      rw [hc] at h
      simp at h
      obtain ⟨hv, _⟩ := h
      obtain ⟨k2, hmem⟩ := dictGet_mem _ _ _ hc
      have := hcache _ hmem
      simpa [hv] using this
  | none =>
      rw [hc] at h
      unfold Context.calculateIdentity at h
      by_cases hk : k = "random"
      · rw [if_pos hk] at h
        simp at h
        obtain ⟨hv, _⟩ := h
        rw [← hv]
        exact Nat.mod_lt _ (by norm_num)
      · rw [if_neg hk] at h
        cases hg : getKeyByPath (Val.dict ctx.data) (splitPath k) with
        | none => rw [hg] at h; simp at h
        | some v =>
            rw [hg] at h
            simp at h
            obtain ⟨hv, _⟩ := h
            rw [← hv]
            exact Nat.mod_lt _ (by norm_num)

/-! ### Claim theorems -/

/-- C4: for an Audience with allocations, in order, (A,10), (B,30), (C,60),
`determine_variant` returns B for rangekey 37, A for rangekey 0 and C for
rangekey 99 (cumulative ranges (-1,9], (9,39], (39,99], the -1 sentinel
making the first allocation cover rangekey 0). -/
theorem C4_bucket_determinism :
    Audience.determineVariant ⟨Option.none, [⟨"A", 10⟩, ⟨"B", 30⟩, ⟨"C", 60⟩]⟩ 37 = some "B"
    ∧ Audience.determineVariant ⟨Option.none, [⟨"A", 10⟩, ⟨"B", 30⟩, ⟨"C", 60⟩]⟩ 0 = some "A"
    ∧ Audience.determineVariant ⟨Option.none, [⟨"A", 10⟩, ⟨"B", 30⟩, ⟨"C", 60⟩]⟩ 99 = some "C" := by
  exact ⟨by decide, by decide, by decide⟩

/-- C3: a non-null override that is a member of the experiment's variants is
returned immediately: the result holds for every rule evaluator (no audience
rule is consulted), the context — in particular its identity cache — is
unchanged, and the shared evaluator state is untouched. -/
theorem C3_override_bypass (hash : String → Nat)
    (evalRule : String → List (String × Val) → Except Unit Val)
    (e : Experiment) (ctx : Context) (ev : Evaluator) (o : String)
    (ho : o ∈ e.variants) :
    e.determineVariant hash evalRule ctx (some o) ev = (Except.ok (some o), ctx, ev) := by
  simp [Experiment.determineVariant, ho]

/-- Witness for C3 at a concrete input whose identity keypath is entirely
absent from the context. -/
theorem C3_override_bypass_witness :
    ("on" ∈ wC3exp.variants)
    ∧ wC3exp.determineVariant (fun s => s.length) (fun _ _ => Except.ok Val.none)
        ⟨[], [], []⟩ (some "on") ⟨[]⟩ = (Except.ok (some "on"), ⟨[], [], []⟩, ⟨[]⟩)
    ∧ getKeyByPath (Val.dict []) (splitPath wC3exp.identity) = Option.none :=
  ⟨by decide,
   C3_override_bypass (fun s => s.length) (fun _ _ => Except.ok Val.none)
     wC3exp ⟨[], [], []⟩ ⟨[]⟩ "on" (by decide),
   rfl⟩

/-- C7 (code-bug evidence): `_extract_overrides` does not skip a malformed
token: `experiment, variant = override.rsplit(':', maxsplit=1)` raises
ValueError on a token with no colon, so the whole extraction fails, while
the same cookie without the malformed token parses fine. -/
theorem C7_malformed_token_fatal :
    extractOverrides "exp1:a bad exp2:b" = Except.error ()
    ∧ extractOverrides "exp1:a exp2:b" = Except.ok [("exp1", "a"), ("exp2", "b")] := by
  exact ⟨by decide, by decide⟩

/-- C8 (code-bug evidence): `export` reads `self._overrides[experiment.name]`
with direct indexing, so with an empty overrides mapping it raises KeyError
for the very first experiment instead of resolving its variant; with an
override entry present the same state exports fine. -/
theorem C8_export_raises_keyerror :
    (CravensworthState.export (fun s => s.length) (fun _ _ => Except.ok Val.none)
        (mkState [c8exp] [] ⟨[], [], []⟩) ⟨[]⟩).1 = Except.error ()
    ∧ (CravensworthState.export (fun s => s.length) (fun _ _ => Except.ok Val.none)
        (mkState [c8exp] [("w", "on")] ⟨[], [], []⟩) ⟨[]⟩).1
          = Except.ok [("w", some "on")] := by
  exact ⟨by decide, by decide⟩

/-- C5: identity is idempotently memoized: once a call with a given
(keypath, seed) pair has returned an integer, calling again with the same
pair returns the same integer and leaves the context (cache and random
stream) unchanged — so only the first call draws randomly or hashes. -/
theorem C5_identity_idempotent (hash : String → Nat) (ctx ctx2 : Context)
    (k : String) (s : Option String) (r : Nat)
    (h : ctx.identity hash k s = (Except.ok r, ctx2)) :
    ctx2.identity hash k s = (Except.ok r, ctx2) :=
  identity_hit hash ctx2 k s r (identity_ok_caches hash ctx ctx2 k s r h)

/-- Witness for C5 with the literal "random" keypath: the first call draws
42 from the random stream, the second call returns the cached 42 without
touching the stream. -/
theorem C5_identity_idempotent_witness :
    Context.identity (fun s => s.length) ⟨[], [], [42]⟩ "random" Option.none
      = (Except.ok 42, ⟨[], [("random", 42)], []⟩)
    ∧ Context.identity (fun s => s.length) ⟨[], [("random", 42)], []⟩ "random" Option.none
      = (Except.ok 42, ⟨[], [("random", 42)], []⟩) :=
  ⟨rfl,
   C5_identity_idempotent (fun s => s.length) ⟨[], [], [42]⟩
     ⟨[], [("random", 42)], []⟩ "random" Option.none 42 rfl⟩

/-- C10: the identity cache key is the plain concatenation of keypath and
seed (null/empty seed contributing nothing), so two distinct (keypath, seed)
pairs with equal concatenations share one cache entry: after a successful
call with the first pair, a call with the second pair returns the first
pair's cached value and changes nothing. -/
theorem C10_cachekey_collision (hash : String → Nat) (ctx ctx2 : Context)
    (k1 k2 : String) (s1 s2 : Option String) (r : Nat)
    (hkey : cacheKeyOf k1 s1 = cacheKeyOf k2 s2)
    (h : ctx.identity hash k1 s1 = (Except.ok r, ctx2)) :
    ctx2.identity hash k2 s2 = (Except.ok r, ctx2) := by
  have hc := identity_ok_caches hash ctx ctx2 k1 s1 r h
  rw [hkey] at hc
  exact identity_hit hash ctx2 k2 s2 r hc

/-- Witness for C10 at the claim's own example: ("ab", "c") and
("abc", null) concatenate to the same cache key "abc"; after
identity("ab", "c") is computed, identity("abc", null) returns the cached
value even though the keypath "abc" does not resolve in the context at
all. -/
theorem C10_cachekey_collision_witness :
    cacheKeyOf "ab" (some "c") = cacheKeyOf "abc" Option.none
    ∧ getKeyByPath (Val.dict [("ab", Val.str "hello")]) (splitPath "abc") = Option.none
    ∧ Context.identity (fun s => s.length) ⟨[("ab", Val.str "hello")], [], []⟩ "ab" (some "c")
        = (Except.ok 6, ⟨[("ab", Val.str "hello")], [("abc", 6)], []⟩)
    ∧ Context.identity (fun s => s.length) ⟨[("ab", Val.str "hello")], [("abc", 6)], []⟩
        "abc" Option.none
        = (Except.ok 6, ⟨[("ab", Val.str "hello")], [("abc", 6)], []⟩) :=
  ⟨by decide, rfl, rfl,
   C10_cachekey_collision (fun s => s.length) ⟨[("ab", Val.str "hello")], [], []⟩
     ⟨[("ab", Val.str "hello")], [("abc", 6)], []⟩ "ab" "abc" (some "c") Option.none 6
     (by decide) rfl⟩

/-- C9 counterexample: `matches` does have a side effect on shared state —
it assigns the context to the class-level evaluator's `names` — and an
interleaving of two `matches` calls on distinct audiences against distinct
contexts (both set-names steps, then the first call's eval step) yields a
different result for the first call (false) than the isolated call (true). -/
theorem C9_counterexample :
    (Audience.matches cexEvalX cexAudX [("x", Val.int 1)] ⟨[]⟩).2.names ≠ (Evaluator.mk []).names
    ∧ (Audience.matches cexEvalX cexAudX [("x", Val.int 1)] ⟨[]⟩).1 = Except.ok true
    ∧ Audience.matchesEval cexEvalX cexAudX
        (Audience.matchesSetNames cexAudX [("x", Val.int 2)]
          (Audience.matchesSetNames cexAudX [("x", Val.int 1)] ⟨[]⟩))
        = Except.ok false
    ∧ (Except.ok false : Except Unit Bool) ≠ Except.ok true :=
  ⟨fun h => List.noConfusion h, rfl, rfl, by decide⟩

/-- C9 amended: `matches` does not touch the Context and the result of an
atomic (non-interleaved) call is independent of the prior shared evaluator
state; with a null rule it returns true and leaves the evaluator alone; but
with a rule present it writes the context into the shared class-level
evaluator's `names`, which is why only non-interleaved calls behave like
isolated ones. -/
theorem C9_matches_shared_evaluator
    (evalRule : String → List (String × Val) → Except Unit Val)
    (a : Audience) (ctxData : List (String × Val)) (ev ev2 : Evaluator) :
    (a.matches evalRule ctxData ev).1 = (a.matches evalRule ctxData ev2).1
    ∧ (a.rule = Option.none → a.matches evalRule ctxData ev = (Except.ok true, ev))
    ∧ (∀ r, a.rule = some r → (a.matches evalRule ctxData ev).2 = ⟨ctxData⟩) := by
  refine ⟨?_, ?_, ?_⟩
  · cases hr : a.rule with
    | none => simp [Audience.matches, Audience.matchesEval, Audience.matchesSetNames, hr]
    | some r => simp [Audience.matches, Audience.matchesEval, Audience.matchesSetNames, hr]
  · intro hr
    simp [Audience.matches, Audience.matchesEval, Audience.matchesSetNames, hr]
  · intro r hr
    simp [Audience.matches, Audience.matchesSetNames, hr]

/-- Witness for C9 amended at a concrete audience and context: the atomic
call returns true regardless of prior evaluator state, and its final shared
state holds the context. -/
theorem C9_matches_shared_evaluator_witness :
    (Audience.matches cexEvalX cexAudX [("x", Val.int 1)] ⟨[("x", Val.int 2)]⟩).1
      = (Audience.matches cexEvalX cexAudX [("x", Val.int 1)] ⟨[]⟩).1
    ∧ (Audience.matches cexEvalX cexAudX [("x", Val.int 1)] ⟨[("x", Val.int 2)]⟩).2
      = ⟨[("x", Val.int 1)]⟩ :=
  ⟨(C9_matches_shared_evaluator cexEvalX cexAudX [("x", Val.int 1)]
      ⟨[("x", Val.int 2)]⟩ ⟨[]⟩).1,
   (C9_matches_shared_evaluator cexEvalX cexAudX [("x", Val.int 1)]
      ⟨[("x", Val.int 2)]⟩ ⟨[]⟩).2.2 "x == 1" rfl⟩

/-- C6: on a cache miss, for any keypath other than the literal "random",
identity fails (KeyError, the code's MissingIdentityError) exactly when
the dotted-path lookup yields absent or null, and otherwise returns the
hash of the stringified resolved value concatenated with the (f-string
rendered) seed, reduced modulo 100 — an integer in [0, 100). -/
theorem C6_identity_missing_or_hash (hash : String → Nat) (ctx : Context)
    (k : String) (s : Option String)
    (hk : k ≠ "random")
    (hmiss : dictGet ctx.identities (cacheKeyOf k s) = Option.none) :
    ((ctx.identity hash k s).1 = Except.error ()
        ↔ getKeyByPath (Val.dict ctx.data) (splitPath k) = Option.none)
    ∧ (∀ v, getKeyByPath (Val.dict ctx.data) (splitPath k) = some v →
        (ctx.identity hash k s).1 = Except.ok (hash (pyStr v ++ pySeedStr s) % 100)
        ∧ hash (pyStr v ++ pySeedStr s) % 100 < 100) := by
  unfold Context.identity
  rw [hmiss]
  unfold Context.calculateIdentity
  rw [if_neg hk]
  cases hg : getKeyByPath (Val.dict ctx.data) (splitPath k) with
  | none =>
      refine ⟨by simp, ?_⟩
      intro v hv
      simp at hv
  | some v =>
      refine ⟨by simp, ?_⟩
      intro v2 hv2
      injection hv2 with hv2
      subst hv2
      exact ⟨by simp, Nat.mod_lt _ (by norm_num)⟩

/-- Witness for C6: a nested keypath that resolves ("user.id" ↦ "u1")
hashes "u1" ++ "s" mod 100, and one that does not ("user.name") fails. -/
theorem C6_identity_missing_or_hash_witness :
    ((Context.identity (fun t => t.length)
        ⟨[("user", Val.dict [("id", Val.str "u1")])], [], []⟩ "user.id" (some "s")).1
      = Except.ok ((fun t : String => t.length) ("u1" ++ "s") % 100)
      ∧ (fun t : String => t.length) ("u1" ++ "s") % 100 < 100)
    ∧ ((Context.identity (fun t => t.length)
        ⟨[("user", Val.dict [("id", Val.str "u1")])], [], []⟩ "user.name" (some "s")).1
      = Except.error ()
      ↔ getKeyByPath (Val.dict [("user", Val.dict [("id", Val.str "u1")])])
          (splitPath "user.name") = Option.none) :=
  ⟨(C6_identity_missing_or_hash (fun t => t.length)
      ⟨[("user", Val.dict [("id", Val.str "u1")])], [], []⟩ "user.id" (some "s")
      (by decide) rfl).2 (Val.str "u1") rfl,
   (C6_identity_missing_or_hash (fun t => t.length)
      ⟨[("user", Val.dict [("id", Val.str "u1")])], [], []⟩ "user.name" (some "s")
      (by decide) rfl).1⟩

/-- With a Unit error payload, every validation outcome is ok () or error (). -/
theorem exceptUnit_dichotomy (x : Except Unit Unit) :
    x = Except.ok () ∨ x = Except.error () := by
  cases x with
  | ok u => cases u; exact Or.inl rfl
  | error er => cases er; exact Or.inr rfl

/-- Characterization of a successful `Allocation.validate`. -/
theorem allocation_validate_ok_iff (al : Allocation) :
    al.validate = Except.ok () ↔
      matchesNamePattern al.variant = true ∧ 0 ≤ al.percent ∧ al.percent ≤ 100 := by
  unfold Allocation.validate
  by_cases h1 : matchesNamePattern al.variant
  · rw [if_pos h1]
    by_cases h2 : al.percent < 0
    · rw [if_pos h2]
      simp [h1]
      omega
    · rw [if_neg h2]
      by_cases h3 : al.percent > 100
      · rw [if_pos h3]
        simp [h1]
        omega
      · rw [if_neg h3]
        simp [h1]
        omega
  · rw [if_neg h1]
    simp [h1]

/-- Characterization of the per-audience allocation checks done inside
`Experiment.validate_audiences`. -/
theorem checkAllocsDeclared_ok_iff (vs : List String) (als : List Allocation) :
    checkAllocsDeclared vs als = Except.ok () ↔
      ∀ al ∈ als, al.validate = Except.ok () ∧ al.variant ∈ vs := by
  induction als with
  | nil => simp [checkAllocsDeclared]
  | cons al rest ih =>
      unfold checkAllocsDeclared
      cases hv : al.validate with
      | error er =>
          simp only [List.mem_cons]
          constructor
          · intro h; exact absurd h (by simp)
          · intro h
            have := (h al (Or.inl rfl)).1
            rw [hv] at this
            exact absurd this (by simp)
      | ok u =>
          cases u
          by_cases hm : al.variant ∈ vs
          · rw [if_pos hm]
            rw [ih]
            constructor
            · intro h al2 hal2
              rcases List.mem_cons.mp hal2 with h1 | h1
              · subst h1; exact ⟨hv, hm⟩
              · exact h al2 h1
            · intro h al2 hal2
              exact h al2 (List.mem_cons_of_mem _ hal2)
          · rw [if_neg hm]
            constructor
            · intro h; exact absurd h (by simp)
            · intro h
              exact absurd ((h al (List.mem_cons_self _ _)).2) hm

/-- Characterization of the allocation checks over all audiences. -/
theorem checkAudiencesAllocs_ok_iff (vs : List String) (auds : List Audience) :
    checkAudiencesAllocs vs auds = Except.ok () ↔
      ∀ a ∈ auds, checkAllocsDeclared vs a.allocations = Except.ok () := by
  induction auds with
  | nil => simp [checkAudiencesAllocs]
  | cons a rest ih =>
      unfold checkAudiencesAllocs
      cases hc : checkAllocsDeclared vs a.allocations with
      | error er =>
          constructor
          · intro h; exact absurd h (by simp)
          · intro h
            have := h a (List.mem_cons_self _ _)
            rw [hc] at this
            exact absurd this (by simp)
      | ok u =>
          cases u
          rw [ih]
          constructor
          · intro h a2 ha2
            rcases List.mem_cons.mp ha2 with h1 | h1
            · subst h1; exact hc
            · exact h a2 h1
          · intro h a2 ha2
            exact h a2 (List.mem_cons_of_mem _ ha2)

/-- Characterization of a successful `Experiment.validate_audiences`:
nonempty audiences, no null rule before the last position, a null rule at
the last position, and every allocation valid and declared.  The
allocation *sums* are not constrained. -/
theorem validateAudiences_ok_iff (e : Experiment) :
    e.validateAudiences = Except.ok () ↔
      e.audiences ≠ []
      ∧ (∀ a ∈ e.audiences.dropLast, a.rule ≠ Option.none)
      ∧ (∀ a, e.audiences.getLast? = some a → a.rule = Option.none)
      ∧ (∀ a ∈ e.audiences, ∀ al ∈ a.allocations,
          al.validate = Except.ok () ∧ al.variant ∈ e.variants) := by
  unfold Experiment.validateAudiences
  by_cases h0 : e.audiences.length = 0
  · rw [if_pos h0]
    have : e.audiences = [] := List.length_eq_zero.mp h0
    simp [this]
  · rw [if_neg h0]
    have hne : e.audiences ≠ [] := by
      intro h; exact h0 (by simp [h])
    by_cases h1 : e.audiences.dropLast.any (fun a => a.rule.isNone)
    · rw [if_pos h1]
      rcases List.any_eq_true.mp h1 with ⟨a, ha, hrule⟩
      constructor
      · intro h; exact absurd h (by simp)
      · intro ⟨_, hdrop, _, _⟩
        exact absurd (Option.isNone_iff_eq_none.mp hrule) (hdrop a ha)
    · rw [if_neg h1]
      have hdrop : ∀ a ∈ e.audiences.dropLast, a.rule ≠ Option.none := by
        intro a ha hnone
        exact h1 (List.any_eq_true.mpr ⟨a, ha, by simp [hnone]⟩)
      by_cases h2 : e.audiences.getLast?.any (fun a => a.rule.isSome)
      · rw [if_pos h2]
        cases hl : e.audiences.getLast? with
        | none => rw [hl] at h2; simp [Option.any] at h2
        | some a =>
            rw [hl] at h2
            simp [Option.any] at h2
            constructor
            · intro h; exact absurd h (by simp)
            · intro ⟨_, _, hlast, _⟩
              rw [hlast a rfl] at h2
              simp at h2
      · rw [if_neg h2]
        have hlast : ∀ a, e.audiences.getLast? = some a → a.rule = Option.none := by
          intro a ha
          rw [ha] at h2
          simp [Option.any] at h2
          exact Option.not_isSome_iff_eq_none.mp (by simp [h2])
        rw [checkAudiencesAllocs_ok_iff]
        constructor
        · intro h
          refine ⟨hne, hdrop, hlast, ?_⟩
          intro a ha
          exact (checkAllocsDeclared_ok_iff e.variants a.allocations).mp (h a ha)
        · intro ⟨_, _, _, h⟩ a ha
          exact (checkAllocsDeclared_ok_iff e.variants a.allocations).mpr (h a ha)

/-- Characterization of a successful `Experiment.validate`. -/
theorem experiment_validate_ok_iff (e : Experiment) :
    e.validate = Except.ok () ↔
      matchesNamePattern e.name = true
      ∧ (e.identity = "random" ∨ matchesSymbolPattern e.identity = true)
      ∧ 1 ≤ e.variants.length
      ∧ e.validateAudiences = Except.ok () := by
  unfold Experiment.validate
  by_cases h1 : matchesNamePattern e.name
  · rw [if_pos h1]
    by_cases h2 : e.identity = "random" ∨ matchesSymbolPattern e.identity
    · rw [if_pos h2]
      by_cases h3 : e.variants.length < 1
      · rw [if_pos h3]
        simp [h1, h2]
        omega
      · rw [if_neg h3]
        simp [h1, h2]
        omega
    · rw [if_neg h2]
      constructor
      · intro h; exact absurd h (by simp)
      · intro ⟨_, hid, _, _⟩
        exact absurd (by simpa using hid) h2
  · rw [if_neg h1]
    simp [h1]

/-- C2 counterexample: the claim demands that this experiment validate
successfully (non-null rule on the last audience, no null-rule audience),
but `validate_audiences` rejects it: the code requires the *last* audience
to have a null rule ("Last audience must not define a rule"). -/
theorem C2_counterexample :
    (∀ a ∈ cexC2.audiences, a.rule ≠ Option.none)
    ∧ cexC2.validate = Except.error () := by
  exact ⟨by decide, by decide⟩

/-- C2 amended: validate() fails whenever the last audience has a non-null
rule; it fails when a null-rule audience sits anywhere but last; and it
succeeds when the last audience's rule is null, no earlier audience's rule
is null, and the remaining field checks (name, identity, variants,
allocations) pass. -/
theorem C2_amended (e : Experiment) (a : Audience) :
    (e.audiences.getLast? = some a → a.rule ≠ Option.none →
      e.validate = Except.error ())
    ∧ (a ∈ e.audiences.dropLast → a.rule = Option.none →
      e.validate = Except.error ())
    ∧ (matchesNamePattern e.name = true →
      (e.identity = "random" ∨ matchesSymbolPattern e.identity = true) →
      1 ≤ e.variants.length →
      e.audiences ≠ [] →
      (∀ b ∈ e.audiences.dropLast, b.rule ≠ Option.none) →
      (∀ b, e.audiences.getLast? = some b → b.rule = Option.none) →
      (∀ b ∈ e.audiences, ∀ al ∈ b.allocations,
        al.validate = Except.ok () ∧ al.variant ∈ e.variants) →
      e.validate = Except.ok ()) := by
  refine ⟨?_, ?_, ?_⟩
  · intro hl hr
    rcases exceptUnit_dichotomy e.validate with hok | herr
    · obtain ⟨_, _, _, haud⟩ := (experiment_validate_ok_iff e).mp hok
      obtain ⟨_, _, hlast, _⟩ := (validateAudiences_ok_iff e).mp haud
      exact absurd (hlast a hl) hr
    · exact herr
  · intro hmem hr
    rcases exceptUnit_dichotomy e.validate with hok | herr
    · obtain ⟨_, _, _, haud⟩ := (experiment_validate_ok_iff e).mp hok
      obtain ⟨_, hdrop, _, _⟩ := (validateAudiences_ok_iff e).mp haud
      exact absurd hr (hdrop a hmem)
    · exact herr
  · intro h1 h2 h3 h4 h5 h6 h7
    exact (experiment_validate_ok_iff e).mpr
      ⟨h1, h2, h3, (validateAudiences_ok_iff e).mpr ⟨h4, h5, h6, h7⟩⟩

/-- Witness for C2 amended: the misplaced-rule experiment is rejected and
the well-formed one is accepted, both via the amended theorem. -/
theorem C2_amended_witness :
    cexC2.validate = Except.error () ∧ wC2good.validate = Except.ok () :=
  ⟨(C2_amended cexC2 ⟨some "region == 1", [⟨"a", 100⟩]⟩).1 (by decide) (by decide),
   (C2_amended wC2good ⟨Option.none, [⟨"a", 100⟩]⟩).2.2 (by decide) (by decide)
     (by decide) (by decide) (by decide) (by decide) (by decide)⟩

/-- If the allocations' percentages are nonnegative and the rangekey lies
strictly above the running start and at most the total cumulative end, the
bucket walk lands in some allocation of the list. -/
theorem determineVariantGo_mem (key : Int) :
    ∀ (als : List Allocation) (rs : Int),
      (∀ al ∈ als, 0 ≤ al.percent) → rs < key → key ≤ rs + allocSum als →
      ∃ al ∈ als, determineVariantGo key rs als = some al.variant := by
  intro als
  induction als with
  | nil =>
      intro rs _ hlo hhi
      simp [allocSum] at hhi
      omega
  | cons al rest ih =>
      intro rs hpos hlo hhi
      by_cases hc : rs < key ∧ key ≤ rs + al.percent
      · refine ⟨al, List.mem_cons_self _ _, ?_⟩
        unfold determineVariantGo
        rw [if_pos hc]
      · have h1 : ¬ key ≤ rs + al.percent := fun h => hc ⟨hlo, h⟩
        have h2 : rs + al.percent < key := by omega
        have h3 : key ≤ rs + al.percent + allocSum rest := by
          simp [allocSum] at hhi
          omega
        obtain ⟨al2, hmem, heq⟩ := ih (rs + al.percent)
          (fun a ha => hpos a (List.mem_cons_of_mem _ ha)) h2 h3
        refine ⟨al2, List.mem_cons_of_mem _ hmem, ?_⟩
        unfold determineVariantGo
        rw [if_neg hc]
        exact heq

/-- The audience loop of `determine_variant`: when the last audience is
ruleless, every audience's allocations sum to 100 with nonnegative declared
percentages, and the cached identities are below 100, a normal (non-raising)
run never returns Python None — it lands in a declared variant. -/
theorem loop_ok_mem (hash : String → Nat)
    (evalRule : String → List (String × Val) → Except Unit Val)
    (identKey : String) (seed : Option String) (vs : List String)
    (ctx ctx2 : Context) (ev2 : Evaluator) (r : Option String)
    (hcache : ∀ p ∈ ctx.identities, p.2 < 100) :
    ∀ (auds : List Audience), auds ≠ [] →
      (∀ a, auds.getLast? = some a → a.rule = Option.none) →
      (∀ a ∈ auds, allocSum a.allocations = 100) →
      (∀ a ∈ auds, ∀ al ∈ a.allocations, 0 ≤ al.percent ∧ al.variant ∈ vs) →
      ∀ (ev : Evaluator),
        determineVariantLoop hash evalRule identKey seed auds ctx ev
          = (Except.ok r, ctx2, ev2) →
        ∃ v ∈ vs, r = some v := by
  intro auds
  induction auds with
  | nil => intro h; exact absurd rfl h
  | cons a rest ih =>
      intro _ hlast hsum hal ev hrun
      unfold determineVariantLoop at hrun
      rcases hm : a.matches evalRule ctx.data ev with ⟨res, ev3⟩
      rw [hm] at hrun
      cases res with
      | error er => simp at hrun
      | ok b =>
          cases b with
          | true =>
              rcases hid : ctx.identity hash identKey seed with ⟨ires, ctx3⟩
              rw [hid] at hrun
              cases ires with
              | error er => simp at hrun
              | ok idv =>
                  simp at hrun
                  obtain ⟨hr, _, _⟩ := hrun
                  have hlt : idv < 100 :=
                    identity_ok_lt hash ctx ctx3 identKey seed idv hcache hid
                  have hmem : a ∈ a :: rest := List.mem_cons_self _ _
                  obtain ⟨al, halmem, heq⟩ := determineVariantGo_mem (idv : Int)
                    a.allocations (-1)
                    (fun al2 h2 => (hal a hmem al2 h2).1)
                    (by omega)
                    (by rw [hsum a hmem]; omega)
                  refine ⟨al.variant, (hal a hmem al halmem).2, ?_⟩
                  rw [← hr]
                  unfold Audience.determineVariant
                  exact heq
          | false =>
              cases rest with
              | nil =>
                  have hrule := hlast a rfl
                  have hmt : a.matches evalRule ctx.data ev = (Except.ok true, ev) := by
                    simp [Audience.matches, Audience.matchesEval,
                      Audience.matchesSetNames, hrule]
                  rw [hmt] at hm
                  simp at hm
              | cons a2 rest2 =>
                  refine ih (by simp) ?_ ?_ ?_ ev3 hrun
                  · intro b hb
                    refine hlast b ?_
                    rw [List.getLast?_cons_cons]
                    exact hb
                  · intro b hb
                    exact hsum b (List.mem_cons_of_mem _ hb)
                  · intro b hb
                    exact hal b (List.mem_cons_of_mem _ hb)

/-- C1 counterexample: `cexC1` passes validate(), its last (only) audience
has a null rule and matches every context, yet with a random draw of 75 the
bucket walk falls off the 50-percent allocation and `determine_variant`
returns Python None (absent) — contradicting both "a variant in variants or
absent only when no audience matches" and "absent impossible when the last
audience has rule = None". -/
theorem C1_counterexample :
    cexC1.validate = Except.ok ()
    ∧ cexC1.audiences.getLast?.map Audience.rule = some Option.none
    ∧ (cexC1.determineVariant (fun s => s.length) (fun _ _ => Except.ok Val.none)
        ⟨[], [], [75]⟩ Option.none ⟨[]⟩).1 = Except.ok Option.none := by
  exact ⟨by decide, by decide, by decide⟩

/-- C1 amended: for every Experiment that passes validate() *and whose
audiences' allocations each sum to 100* (an invariant of
`Audience.validate` that `Experiment.validate` does not enforce), any
normally returning `determine_variant(context, None)` call yields a member
of the experiment's variants; absent is impossible, since validate forces
the last audience to be ruleless and hence to match every context. -/
theorem C1_validated_returns_variant (hash : String → Nat)
    (evalRule : String → List (String × Val) → Except Unit Val)
    (e : Experiment) (ctx ctx2 : Context) (ev ev2 : Evaluator)
    (r : Option String)
    (hval : e.validate = Except.ok ())
    (hsum : ∀ a ∈ e.audiences, allocSum a.allocations = 100)
    (hcache : ∀ p ∈ ctx.identities, p.2 < 100)
    (hrun : e.determineVariant hash evalRule ctx Option.none ev
      = (Except.ok r, ctx2, ev2)) :
    ∃ v ∈ e.variants, r = some v := by
  obtain ⟨_, _, _, haud⟩ := (experiment_validate_ok_iff e).mp hval
  obtain ⟨hne, _, hlast, hdecl⟩ := (validateAudiences_ok_iff e).mp haud
  have hal : ∀ a ∈ e.audiences, ∀ al ∈ a.allocations,
      0 ≤ al.percent ∧ al.variant ∈ e.variants := by
    intro a ha al hal2
    obtain ⟨hv, hm⟩ := hdecl a ha al hal2
    exact ⟨((allocation_validate_ok_iff al).mp hv).2.1, hm⟩
  exact loop_ok_mem hash evalRule e.identity (some e.seed) e.variants ctx ctx2 ev2 r
    hcache e.audiences hne hlast hsum hal ev hrun

/-- Witness for the amended C1 at a concrete run: the variant "a" is
resolved and belongs to the declared variants. -/
theorem C1_validated_returns_variant_witness :
    ∃ v ∈ wC1good.variants, (some "a" : Option String) = some v :=
  C1_validated_returns_variant (fun s => s.length) (fun _ _ => Except.ok Val.none)
    wC1good ⟨[], [], []⟩ ⟨[], [("randomw", 0)], []⟩ ⟨[]⟩ ⟨[]⟩ (some "a")
    (by decide) (by decide) (by simp) rfl

end Cravensworth
